import Mathlib

/-!
Shallow embedding of the heat-pulse flow measurement core
(`src/hardware/wx-flow/firmware/heat_pulse.h` with constants from
`src/hardware/wx-flow/firmware/config.h`).

Machine `float` arithmetic is modelled over `ℝ`; raw ADC counts are
modelled as integers.  The hardware-facing while-loop of the monitoring
phase is modelled as a fold over the finite list of samples the loop
observes before the wall-clock deadline expires (the clock is strictly
monotone, so the loop always sees finitely many samples).
-/

namespace WaterXChange

noncomputable section

/-- Calibration constants, from `config.h`. -/
def THERM_NOMINAL_R : ℝ := 10000.0

/-- Nominal thermistor temperature (°C), from `config.h`. -/
def THERM_NOMINAL_T : ℝ := 25.0

/-- Thermistor B coefficient, from `config.h`. -/
def THERM_B_COEFF : ℝ := 3950.0

/-- Series resistor in the divider (Ω), from `config.h`. -/
def THERM_SERIES_R : ℝ := 10000.0

/-- Velocity calibration constant (cm·s/day), from `config.h`. -/
def FLOW_CAL_K : ℝ := 900.0

/-- ADC volts-per-count scale used in `thermistor_temp`:
`float voltage = raw * 0.000125f`. -/
def voltage_of (raw : ℤ) : ℝ := (raw : ℝ) * 0.000125

/-- The inverted voltage-divider resistance from `thermistor_temp`:
`float r_therm = THERM_SERIES_R * voltage / (3.3f - voltage)`. -/
def r_therm_of (raw : ℤ) : ℝ :=
  THERM_SERIES_R * voltage_of raw / (3.3 - voltage_of raw)

/-- The B-parameter Steinhart-Hart accumulator from `thermistor_temp`:
`steinhart = log(r/R0)/B + 1/(T0+273.15)`. -/
noncomputable def steinhart_of (raw : ℤ) : ℝ :=
  Real.log (r_therm_of raw / THERM_NOMINAL_R) / THERM_B_COEFF
    + 1 / (THERM_NOMINAL_T + 273.15)

/-- `thermistor_temp` from `heat_pulse.h`: convert a raw ADC count to °C,
returning the sentinel `-999` when the inverted divider resistance is
non-positive. -/
noncomputable def thermistor_temp (raw : ℤ) : ℝ :=
  if r_therm_of raw ≤ 0 then -999.0
  else 1 / steinhart_of raw - 273.15

/-- `struct FlowResult` from `heat_pulse.h`. -/
structure FlowResult where
  velocity_cm_day : ℝ
  direction_deg : ℝ
  peak_temps : Fin 4 → ℝ
  peak_times : Fin 4 → ℝ
  valid : Bool

/-- Cardinal bearings `const float dirs[4] = {0, 90, 180, 270}` (N,E,S,W). -/
def dirs : Fin 4 → ℝ := ![0, 90, 180, 270]

/-- `atan2f(y, x)`: the argument of the complex number `x + y·i`,
valued in `(-π, π]`. -/
noncomputable def atan2 (y x : ℝ) : ℝ := Complex.arg ⟨x, y⟩

/-- First step of the dominant-channel scan (`j = 1`):
`if (peak_dt[j] > peak_dt[max_idx]) max_idx = j`. -/
noncomputable def dom1 (p : Fin 4 → ℝ) : Fin 4 :=
  if p 1 > p 0 then 1 else 0

/-- Second step of the dominant-channel scan (`j = 2`). -/
noncomputable def dom2 (p : Fin 4 → ℝ) : Fin 4 :=
  if p 2 > p (dom1 p) then 2 else dom1 p

/-- The dominant thermistor index computed by the forward scan in Step 4 of
`run_heat_pulse` (strict greater-than, starting from `max_idx = 0`). -/
noncomputable def dominantIdx (p : Fin 4 → ℝ) : Fin 4 :=
  if p 3 > p (dom2 p) then 3 else dom2 p

/-- The `sin_sum` accumulated by the Step-5a loop: each channel's bearing
sine weighted by that channel's peak ΔT. -/
noncomputable def sin_sumOf (p : Fin 4 → ℝ) : ℝ :=
  ∑ j : Fin 4, p j * Real.sin (dirs j * Real.pi / 180)

/-- The `cos_sum` accumulated by the Step-5a loop. -/
noncomputable def cos_sumOf (p : Fin 4 → ℝ) : ℝ :=
  ∑ j : Fin 4, p j * Real.cos (dirs j * Real.pi / 180)

/-- Step 5a of `run_heat_pulse`: weighted circular-mean flow direction in
degrees (`atan2f(sin_sum, cos_sum) * 180 / M_PI`), wrapped into `[0, 360)`
by adding 360 to negative angles. -/
noncomputable def directionOf (p : Fin 4 → ℝ) : ℝ :=
  if atan2 (sin_sumOf p) (cos_sumOf p) * 180 / Real.pi < 0 then
    atan2 (sin_sumOf p) (cos_sumOf p) * 180 / Real.pi + 360
  else
    atan2 (sin_sumOf p) (cos_sumOf p) * 180 / Real.pi

/-- Step 5b of `run_heat_pulse`: velocity from the dominant channel's peak
delay time, with the `0.5 s` floor clamp. -/
noncomputable def velocityOf (peak_time : Fin 4 → ℝ) (max_idx : Fin 4) : ℝ :=
  if peak_time max_idx > 0.5 then FLOW_CAL_K / peak_time max_idx
  else FLOW_CAL_K / 0.5

/-- Steps 4-5 of `run_heat_pulse`: turn the four tracked
`(peak ΔT, peak time)` pairs into a `FlowResult`.  The stagnation branch
(`peak_dt[max_idx] < 0.05f`) returns velocity 0, direction -1, valid true. -/
noncomputable def analyze (peak_dt peak_time : Fin 4 → ℝ) : FlowResult :=
  if peak_dt (dominantIdx peak_dt) < 0.05 then
    { velocity_cm_day := 0
      direction_deg := -1
      peak_temps := peak_dt
      peak_times := peak_time
      valid := true }
  else
    { velocity_cm_day := velocityOf peak_time (dominantIdx peak_dt)
      direction_deg := directionOf peak_dt
      peak_temps := peak_dt
      peak_times := peak_time
      valid := true }

/-- One iteration of the Step-3 monitoring loop body: for each channel,
`dt = t[j] - baseline[j]`, and if `dt > peak_dt[j]` both the peak and the
peak time are updated. -/
noncomputable def monitorStep (baseline : Fin 4 → ℝ)
    (st : (Fin 4 → ℝ) × (Fin 4 → ℝ)) (sample : (Fin 4 → ℝ) × ℝ) :
    (Fin 4 → ℝ) × (Fin 4 → ℝ) :=
  (fun j => if sample.1 j - baseline j > st.1 j
            then sample.1 j - baseline j else st.1 j,
   fun j => if sample.1 j - baseline j > st.1 j
            then sample.2 else st.2 j)

/-- The whole Step-3 monitoring loop: fold the loop body over the finite
sequence of `(four temperatures, elapsed seconds)` samples observed before
the `FLOW_MONITOR_MS` deadline, starting from all-zero peak trackers. -/
noncomputable def monitor (baseline : Fin 4 → ℝ)
    (samples : List ((Fin 4 → ℝ) × ℝ)) : (Fin 4 → ℝ) × (Fin 4 → ℝ) :=
  samples.foldl (monitorStep baseline) (fun _ => 0, fun _ => 0)

/-- One input trace for a measurement cycle: the raw ADC counts returned
during the ten baseline passes, and the raw ADC counts with elapsed time
(seconds since heater-off) for each monitoring sample. -/
structure Trace where
  baselineRaw : Fin 10 → Fin 4 → ℤ
  samples : List ((Fin 4 → ℤ) × ℝ)

/-- Step 1 of `run_heat_pulse`: baseline per channel, the arithmetic mean of
ten thermistor readings. -/
noncomputable def baselineOf (tr : Trace) : Fin 4 → ℝ :=
  fun j => (∑ i : Fin 10, thermistor_temp (tr.baselineRaw i j)) / 10

/-- The monitoring samples of a trace converted through `thermistor_temp`. -/
noncomputable def tempSamples (tr : Trace) : List ((Fin 4 → ℝ) × ℝ) :=
  tr.samples.map (fun s => (fun j => thermistor_temp (s.1 j), s.2))

/-- The `(peak_dt, peak_time)` trackers at the end of the monitoring phase. -/
noncomputable def peaksOf (tr : Trace) : (Fin 4 → ℝ) × (Fin 4 → ℝ) :=
  monitor (baselineOf tr) (tempSamples tr)

/-- `run_heat_pulse` from `heat_pulse.h`: baseline, heat pulse, monitoring,
then analysis.  Heater control and the blocking delays have no effect on
the returned data beyond delimiting the sample list of the trace. -/
noncomputable def run_heat_pulse (tr : Trace) : FlowResult :=
  analyze (peaksOf tr).1 (peaksOf tr).2

/-- A concrete input trace whose monitoring window saw no samples: every
peak tracker stays at its zero seed. -/
def emptyTrace : Trace := ⟨fun _ _ => 0, []⟩

/-- The synthetic rise sequence `[0, 0.2, 0.5, 0.3, 0.1]` at elapsed times
`[0, 1, 2, 3, 4]` seconds, applied to all four channels over a zero
baseline. -/
noncomputable def riseSeq : List ((Fin 4 → ℝ) × ℝ) :=
  [(fun _ => 0, 0), (fun _ => 0.2, 1), (fun _ => 0.5, 2),
   (fun _ => 0.3, 3), (fun _ => 0.1, 4)]

end

/-! ## Helper lemmas -/

/-- Both branches of the Step 4/5 analysis echo the tracked peaks. -/
lemma analyze_peak_temps (p t : Fin 4 → ℝ) : (analyze p t).peak_temps = p := by
  unfold analyze
  split_ifs <;> rfl

/-- Both branches of the Step 4/5 analysis set the validity flag. -/
lemma analyze_valid (p t : Fin 4 → ℝ) : (analyze p t).valid = true := by
  unfold analyze
  split_ifs <;> rfl

/-- The zero-seeded peak trackers only ever grow, so they stay nonnegative. -/
lemma monitor_fst_nonneg (baseline : Fin 4 → ℝ)
    (samples : List ((Fin 4 → ℝ) × ℝ)) (j : Fin 4) :
    0 ≤ (monitor baseline samples).1 j := by
  have key : ∀ (l : List ((Fin 4 → ℝ) × ℝ)) (st : (Fin 4 → ℝ) × (Fin 4 → ℝ)),
      (∀ i, 0 ≤ st.1 i) → ∀ i, 0 ≤ (l.foldl (monitorStep baseline) st).1 i := by
    intro l
    induction l with
    | nil => intro st hst i; exact hst i
    | cons s l ih =>
      intro st hst i
      refine ih _ (fun i' => ?_) i
      dsimp [monitorStep]
      split_ifs with h
      · exact le_of_lt (lt_of_le_of_lt (hst i') h)
      · exact hst i'
  exact key samples (fun _ => 0, fun _ => 0) (fun _ => le_refl 0) j

/-- The wrapped circular-mean direction always lands in `[0, 360)`. -/
lemma directionOf_mem (p : Fin 4 → ℝ) :
    0 ≤ directionOf p ∧ directionOf p < 360 := by
  unfold directionOf atan2
  set θ := Complex.arg ⟨cos_sumOf p, sin_sumOf p⟩ with hθ
  have h1 : -Real.pi < θ := Complex.neg_pi_lt_arg _
  have h2 : θ ≤ Real.pi := Complex.arg_le_pi _
  have hπ : 0 < Real.pi := Real.pi_pos
  have hub : θ * 180 / Real.pi ≤ 180 := by
    rw [div_le_iff₀ hπ]
    nlinarith
  have hlb : -180 < θ * 180 / Real.pi := by
    rw [lt_div_iff₀ hπ]
    nlinarith
  split_ifs with h
  · constructor <;> linarith
  · constructor <;> linarith

/-- The wrapped direction is the degree-converted `atan2`, possibly shifted
by one full turn. -/
lemma directionOf_eq_or (p : Fin 4 → ℝ) :
    directionOf p = atan2 (sin_sumOf p) (cos_sumOf p) * 180 / Real.pi ∨
    directionOf p = atan2 (sin_sumOf p) (cos_sumOf p) * 180 / Real.pi + 360 := by
  unfold directionOf
  split_ifs with h
  · right; rfl
  · left; rfl

/-- The Step-5a sine accumulator written out over the four bearings. -/
lemma sin_sumOf_eq (p : Fin 4 → ℝ) :
    sin_sumOf p =
      p 0 * Real.sin (0 * Real.pi / 180) + p 1 * Real.sin (90 * Real.pi / 180) +
      p 2 * Real.sin (180 * Real.pi / 180) + p 3 * Real.sin (270 * Real.pi / 180) := by
  unfold sin_sumOf
  rw [Fin.sum_univ_four]
  simp [dirs]

/-- The Step-5a cosine accumulator written out over the four bearings. -/
lemma cos_sumOf_eq (p : Fin 4 → ℝ) :
    cos_sumOf p =
      p 0 * Real.cos (0 * Real.pi / 180) + p 1 * Real.cos (90 * Real.pi / 180) +
      p 2 * Real.cos (180 * Real.pi / 180) + p 3 * Real.cos (270 * Real.pi / 180) := by
  unfold cos_sumOf
  rw [Fin.sum_univ_four]
  simp [dirs]

/-- When no later channel strictly beats channel 0, the scan keeps 0. -/
lemma dominantIdx_eq_zero (p : Fin 4 → ℝ)
    (h1 : p 1 ≤ p 0) (h2 : p 2 ≤ p 0) (h3 : p 3 ≤ p 0) :
    dominantIdx p = 0 := by
  unfold dominantIdx dom2 dom1
  rw [if_neg (not_lt.2 h1), if_neg (not_lt.2 h2), if_neg (not_lt.2 h3)]

/-- `atan2` on the diagonal: the argument of `a + a·i` is `π/4` for `a > 0`. -/
lemma arg_mk_self (a : ℝ) (ha : 0 < a) :
    Complex.arg ⟨a, a⟩ = Real.pi / 4 := by
  have h2 : Real.sqrt 2 * Real.sqrt 2 = 2 := Real.mul_self_sqrt (by norm_num)
  have key : (Complex.mk a a)
      = ((a * Real.sqrt 2 : ℝ) : ℂ)
        * (Complex.cos ↑(Real.pi / 4) + Complex.sin ↑(Real.pi / 4) * Complex.I) := by
    rw [← Complex.ofReal_cos, ← Complex.ofReal_sin,
      Real.cos_pi_div_four, Real.sin_pi_div_four, Complex.mk_eq_add_mul_I]
    have h2c : (Real.sqrt 2 : ℂ) * (Real.sqrt 2 : ℂ) = 2 := by exact_mod_cast h2
    push_cast
    linear_combination (-(a * (1 + Complex.I)) / 2) * h2c
  rw [key]
  refine Complex.arg_mul_cos_add_sin_mul_I (by positivity) ?_
  constructor
  · linarith [Real.pi_pos]
  · linarith [Real.pi_pos]

/-- Equal weights on N and E only give the exact bisector, 45 degrees. -/
lemma directionOf_NE (a : ℝ) (ha : 0 < a) : directionOf ![a, a, 0, 0] = 45 := by
  have hs : sin_sumOf ![a, a, 0, 0] = a := by
    rw [sin_sumOf_eq]
    rw [show (0 : ℝ) * Real.pi / 180 = 0 by ring,
      show (90 : ℝ) * Real.pi / 180 = Real.pi / 2 by ring]
    simp [Real.sin_pi_div_two]
  have hc : cos_sumOf ![a, a, 0, 0] = a := by
    rw [cos_sumOf_eq]
    rw [show (0 : ℝ) * Real.pi / 180 = 0 by ring,
      show (90 : ℝ) * Real.pi / 180 = Real.pi / 2 by ring]
    simp [Real.cos_pi_div_two]
  unfold directionOf
  rw [hs, hc]
  unfold atan2
  rw [arg_mk_self a ha]
  rw [show Real.pi / 4 * 180 / Real.pi = 45 by
    field_simp
    ring]
  rw [if_neg (by norm_num)]

/-! ## Claim theorems -/

/-- C10: for every input trace (every sequence of ADC readings and clock
values), `run_heat_pulse` returns a `FlowResult` with `valid = true`: both
return paths set the flag, so a caller can never observe `valid = false`. -/
theorem run_heat_pulse_always_valid (tr : Trace) :
    (run_heat_pulse tr).valid = true :=
  analyze_valid _ _

/-- C9: every channel's tracked peak ΔT is nonnegative once the monitoring
phase completes (it is seeded at 0 and only replaced by strictly larger
rises), and hence every echoed `peak_temps[j]` of the returned `FlowResult`
is nonnegative, for every trace. -/
theorem peak_temps_nonneg :
    (∀ (baseline : Fin 4 → ℝ) (samples : List ((Fin 4 → ℝ) × ℝ)) (j : Fin 4),
      0 ≤ (monitor baseline samples).1 j) ∧
    (∀ (tr : Trace) (j : Fin 4), 0 ≤ (run_heat_pulse tr).peak_temps j) := by
  refine ⟨monitor_fst_nonneg, fun tr j => ?_⟩
  unfold run_heat_pulse
  rw [analyze_peak_temps]
  exact monitor_fst_nonneg _ _ j

/-- C4: the dominant channel returned by the forward strict-greater scan
carries the largest peak ΔT, and any tie is broken in favour of the lowest
channel index: whenever a later index is selected, every earlier channel is
strictly smaller. -/
theorem dominant_channel_argmax (p : Fin 4 → ℝ) :
    (p 0 ≤ p (dominantIdx p) ∧ p 1 ≤ p (dominantIdx p) ∧
     p 2 ≤ p (dominantIdx p) ∧ p 3 ≤ p (dominantIdx p)) ∧
    (dominantIdx p = 1 → p 0 < p 1) ∧
    (dominantIdx p = 2 → p 0 < p 2 ∧ p 1 < p 2) ∧
    (dominantIdx p = 3 → p 0 < p 3 ∧ p 1 < p 3 ∧ p 2 < p 3) := by
  unfold dominantIdx dom2 dom1
  split_ifs <;>
    refine ⟨⟨?_, ?_, ?_, ?_⟩, fun h => ?_, fun h => ?_, fun h => ?_⟩ <;>
    first
      | linarith
      | exact absurd h (by decide)
      | (refine ⟨?_, ?_⟩ <;> linarith)
      | (refine ⟨?_, ?_, ?_⟩ <;> linarith)

/-- C1: whenever the dominant channel's tracked peak ΔT ends the cycle
below the 0.05 °C stagnation threshold, `run_heat_pulse` returns velocity
0, direction −1 and `valid = true`; in particular four channels that each
peaked at 0.04 yield exactly this stagnant result. -/
theorem stagnant_flow_result :
    (∀ tr : Trace, (peaksOf tr).1 (dominantIdx (peaksOf tr).1) < 0.05 →
      (run_heat_pulse tr).velocity_cm_day = 0 ∧
      (run_heat_pulse tr).direction_deg = -1 ∧
      (run_heat_pulse tr).valid = true) ∧
    (∀ t : Fin 4 → ℝ,
      analyze (fun _ => 0.04) t =
        ⟨0, -1, fun _ => 0.04, t, true⟩) := by
  constructor
  · intro tr h
    unfold run_heat_pulse analyze
    rw [if_pos h]
    exact ⟨rfl, rfl, rfl⟩
  · intro t
    unfold analyze
    rw [if_pos (by show (0.04 : ℝ) < 0.05; norm_num)]

/-- Witness for C1: the trace with an empty monitoring window satisfies the
stagnation hypothesis and produces the stagnant result. -/
theorem stagnant_flow_result_witness :
    (peaksOf emptyTrace).1 (dominantIdx (peaksOf emptyTrace).1) < 0.05 ∧
    (run_heat_pulse emptyTrace).velocity_cm_day = 0 ∧
    (run_heat_pulse emptyTrace).direction_deg = -1 ∧
    (run_heat_pulse emptyTrace).valid = true := by
  have h : (peaksOf emptyTrace).1 (dominantIdx (peaksOf emptyTrace).1) < 0.05 := by
    show (0 : ℝ) < 0.05
    norm_num
  exact ⟨h, stagnant_flow_result.1 emptyTrace h⟩

/-- C2: in every non-stagnant cycle the velocity is `FLOW_CAL_K` divided by
the dominant channel's peak time clamped below at 0.5 s: for peak times
above 0.5 s the velocity is `K / t`, and for every peak time at most 0.5 s
(including 0) it is `K / 0.5`. -/
theorem velocity_clamp (p t : Fin 4 → ℝ)
    (h : ¬ p (dominantIdx p) < 0.05) :
    (analyze p t).velocity_cm_day = FLOW_CAL_K / max (t (dominantIdx p)) 0.5 ∧
    (0.5 < t (dominantIdx p) →
      (analyze p t).velocity_cm_day = FLOW_CAL_K / t (dominantIdx p)) ∧
    (t (dominantIdx p) ≤ 0.5 →
      (analyze p t).velocity_cm_day = FLOW_CAL_K / 0.5) := by
  unfold analyze
  rw [if_neg h]
  show velocityOf t (dominantIdx p) = _ ∧ _ ∧ _
  unfold velocityOf
  refine ⟨?_, fun ht => ?_, fun ht => ?_⟩
  · split_ifs with ht
    · rw [max_eq_left (le_of_lt ht)]
    · rw [max_eq_right (not_lt.1 ht)]
  · rw [if_pos ht]
  · rw [if_neg (not_lt.2 ht)]

/-- Witness for C2: with all peaks at 1 °C (non-stagnant) and `K = 900`, a
dominant peak time of 0.1 s produces the same velocity as 0.5 s, namely
1800. -/
theorem velocity_clamp_witness :
    ¬ (fun _ : Fin 4 => (1 : ℝ)) (dominantIdx fun _ => 1) < 0.05 ∧
    (analyze (fun _ => 1) (fun _ => 0.1)).velocity_cm_day = 1800 ∧
    (analyze (fun _ => 1) (fun _ => 0.5)).velocity_cm_day = 1800 := by
  have h : ¬ (fun _ : Fin 4 => (1 : ℝ)) (dominantIdx fun _ => 1) < 0.05 := by
    show ¬ (1 : ℝ) < 0.05
    norm_num
  refine ⟨h, ?_, ?_⟩
  · rw [(velocity_clamp (fun _ => 1) (fun _ => 0.1) h).2.2
      (by show (0.1 : ℝ) ≤ 0.5; norm_num)]
    unfold FLOW_CAL_K
    norm_num
  · rw [(velocity_clamp (fun _ => 1) (fun _ => 0.5) h).2.2
      (by show (0.5 : ℝ) ≤ 0.5; norm_num)]
    unfold FLOW_CAL_K
    norm_num

/-- C3: in every non-stagnant cycle the returned direction is the
degree-converted `atan2` of the peak-ΔT-weighted sine and cosine sums of
the four cardinal bearings (N=0°, E=90°, S=180°, W=270°), wrapped by at
most one full turn into `[0, 360)`; equal peak rises on N and E with
S = W = 0 give exactly 45°. -/
theorem direction_weighted_circular_mean :
    (∀ p t : Fin 4 → ℝ, ¬ p (dominantIdx p) < 0.05 →
      ((analyze p t).direction_deg =
          atan2 (p 0 * Real.sin (0 * Real.pi / 180) + p 1 * Real.sin (90 * Real.pi / 180) +
                 p 2 * Real.sin (180 * Real.pi / 180) + p 3 * Real.sin (270 * Real.pi / 180))
                (p 0 * Real.cos (0 * Real.pi / 180) + p 1 * Real.cos (90 * Real.pi / 180) +
                 p 2 * Real.cos (180 * Real.pi / 180) + p 3 * Real.cos (270 * Real.pi / 180))
            * 180 / Real.pi ∨
       (analyze p t).direction_deg =
          atan2 (p 0 * Real.sin (0 * Real.pi / 180) + p 1 * Real.sin (90 * Real.pi / 180) +
                 p 2 * Real.sin (180 * Real.pi / 180) + p 3 * Real.sin (270 * Real.pi / 180))
                (p 0 * Real.cos (0 * Real.pi / 180) + p 1 * Real.cos (90 * Real.pi / 180) +
                 p 2 * Real.cos (180 * Real.pi / 180) + p 3 * Real.cos (270 * Real.pi / 180))
            * 180 / Real.pi + 360) ∧
      0 ≤ (analyze p t).direction_deg ∧ (analyze p t).direction_deg < 360) ∧
    (∀ a : ℝ, 0.05 ≤ a → ∀ t : Fin 4 → ℝ,
      (analyze ![a, a, 0, 0] t).direction_deg = 45) := by
  constructor
  · intro p t h
    unfold analyze
    rw [if_neg h]
    refine ⟨?_, (directionOf_mem p).1, (directionOf_mem p).2⟩
    show directionOf p = _ ∨ directionOf p = _
    rw [← sin_sumOf_eq p, ← cos_sumOf_eq p]
    exact directionOf_eq_or p
  · intro a ha t
    have hd : dominantIdx ![a, a, 0, 0] = 0 :=
      dominantIdx_eq_zero _ (by simp) (by simp; linarith) (by simp; linarith)
    unfold analyze
    rw [hd]
    rw [if_neg (by simp; linarith : ¬ (![a, a, 0, 0] : Fin 4 → ℝ) 0 < 0.05)]
    show directionOf ![a, a, 0, 0] = 45
    exact directionOf_NE a (by linarith)

/-- Witness for C3: with unit peaks on N and E only, the hypotheses hold and
the direction is defined, in range, and exactly 45°. -/
theorem direction_weighted_circular_mean_witness :
    ¬ (![1, 1, 0, 0] : Fin 4 → ℝ) (dominantIdx ![1, 1, 0, 0]) < 0.05 ∧
    0 ≤ (analyze (![1, 1, 0, 0] : Fin 4 → ℝ) (fun _ => 0)).direction_deg ∧
    (0.05 : ℝ) ≤ 1 ∧
    (analyze (![1, 1, 0, 0] : Fin 4 → ℝ) (fun _ => 0)).direction_deg = 45 := by
  have hd : dominantIdx (![1, 1, 0, 0] : Fin 4 → ℝ) = 0 :=
    dominantIdx_eq_zero _ (by simp) (by simp) (by simp)
  have h : ¬ (![1, 1, 0, 0] : Fin 4 → ℝ) (dominantIdx ![1, 1, 0, 0]) < 0.05 := by
    rw [hd]
    norm_num
  exact ⟨h, (direction_weighted_circular_mean.1 ![1, 1, 0, 0] (fun _ => 0) h).2.1,
    by norm_num, direction_weighted_circular_mean.2 1 (by norm_num) (fun _ => 0)⟩

/-- C5 counterexample: with the dominant peak exactly at the 0.05 threshold
the returned direction is defined (≠ −1) even though the peak does not
strictly exceed the threshold, refuting the claimed equivalence. -/
theorem direction_defined_iff_cex :
    (analyze (![0.05, 0, 0, 0] : Fin 4 → ℝ) (fun _ => 0)).direction_deg ≠ -1 ∧
    ¬ ((![0.05, 0, 0, 0] : Fin 4 → ℝ) (dominantIdx ![0.05, 0, 0, 0]) > 0.05) := by
  have hd : dominantIdx (![0.05, 0, 0, 0] : Fin 4 → ℝ) = 0 :=
    dominantIdx_eq_zero _ (by norm_num) (by norm_num) (by norm_num)
  constructor
  · unfold analyze
    rw [hd]
    rw [if_neg (by norm_num : ¬ (![0.05, 0, 0, 0] : Fin 4 → ℝ) 0 < 0.05)]
    show directionOf ![0.05, 0, 0, 0] ≠ -1
    have h0 := (directionOf_mem ![0.05, 0, 0, 0]).1
    intro he
    rw [he] at h0
    linarith
  · rw [hd]
    norm_num

/-- C5 (amended): the returned direction is defined (≠ −1) if and only if
the dominant channel's peak rise is at least the 0.05 °C threshold, i.e.
not strictly below it. -/
theorem direction_defined_iff_amended (p t : Fin 4 → ℝ) :
    (analyze p t).direction_deg ≠ -1 ↔ 0.05 ≤ p (dominantIdx p) := by
  unfold analyze
  split_ifs with h
  · refine iff_of_false ?_ (not_le.2 h)
    show ¬ (-1 : ℝ) ≠ -1
    simp
  · refine iff_of_true ?_ (not_lt.1 h)
    show directionOf p ≠ -1
    have h0 := (directionOf_mem p).1
    intro he
    rw [he] at h0
    linarith

/-- C7: a channel's peak tracker (magnitude and elapsed time) is updated
exactly when the newly computed rise above baseline strictly exceeds the
recorded peak; on the synthetic rise sequence `[0, 0.2, 0.5, 0.3, 0.1]` at
times `[0, 1, 2, 3, 4]` s the tracked peak is 0.5 recorded at 2 s,
irrespective of the later smaller values. -/
theorem peak_tracking :
    (∀ (baseline : Fin 4 → ℝ) (st : (Fin 4 → ℝ) × (Fin 4 → ℝ))
        (sample : (Fin 4 → ℝ) × ℝ) (j : Fin 4),
      (monitorStep baseline st sample).1 j =
        (if sample.1 j - baseline j > st.1 j
         then sample.1 j - baseline j else st.1 j) ∧
      (monitorStep baseline st sample).2 j =
        (if sample.1 j - baseline j > st.1 j
         then sample.2 else st.2 j)) ∧
    (monitor (fun _ => 0) riseSeq).1 0 = 0.5 ∧
    (monitor (fun _ => 0) riseSeq).2 0 = 2 := by
  refine ⟨fun baseline st sample j => ⟨rfl, rfl⟩, ?_, ?_⟩ <;>
    norm_num [monitor, riseSeq, monitorStep, List.foldl]

/-- Crude logarithm bound: `log 26400 ≤ 13`, since `26400 < 2.7^13 ≤ e^13`. -/
lemma log_26400_le : Real.log 26400 ≤ 13 := by
  rw [Real.log_le_iff_le_exp (by norm_num)]
  have h1 : (2.7 : ℝ) ^ (13 : ℕ) ≤ Real.exp 1 ^ (13 : ℕ) :=
    pow_le_pow_left₀ (by norm_num) (le_trans (by norm_num) Real.exp_one_gt_d9.le) 13
  have h2 : Real.exp 1 ^ (13 : ℕ) = Real.exp 13 := by
    rw [← Real.exp_nat_mul]
    norm_num
  have h3 : (26400 : ℝ) ≤ (2.7 : ℝ) ^ (13 : ℕ) := by norm_num
  linarith

/-- A positive inverted divider resistance pins the raw count to the open
voltage window `0 < raw·0.000125 < 3.3`, i.e. `1 ≤ raw ≤ 26399`. -/
lemma r_pos_bounds (raw : ℤ) (h : 0 < r_therm_of raw) :
    1 ≤ raw ∧ raw ≤ 26399 := by
  constructor
  · by_contra h1
    push_neg at h1
    have hz : raw ≤ 0 := by omega
    have hv : voltage_of raw ≤ 0 := by
      unfold voltage_of
      have hz' : (raw : ℝ) ≤ 0 := by exact_mod_cast hz
      nlinarith
    have hnum : THERM_SERIES_R * voltage_of raw ≤ 0 := by
      unfold THERM_SERIES_R
      nlinarith
    have hden : (0 : ℝ) ≤ 3.3 - voltage_of raw := by linarith
    have : r_therm_of raw ≤ 0 := by
      unfold r_therm_of
      exact div_nonpos_iff.mpr (Or.inr ⟨hnum, hden⟩)
    linarith
  · by_contra h2
    push_neg at h2
    rcases eq_or_lt_of_le (show (26400 : ℤ) ≤ raw by omega) with heq | hlt
    · have hv : voltage_of raw = 3.3 := by
        unfold voltage_of
        rw [← heq]
        norm_num
      have : r_therm_of raw = 0 := by
        unfold r_therm_of
        rw [hv]
        norm_num
      linarith
    · have hv : 3.3 < voltage_of raw := by
        unfold voltage_of
        have h26 : (26401 : ℝ) ≤ (raw : ℝ) := by exact_mod_cast hlt
        nlinarith
      have hnum : 0 < THERM_SERIES_R * voltage_of raw := by
        unfold THERM_SERIES_R
        nlinarith
      have : r_therm_of raw < 0 := by
        unfold r_therm_of
        exact div_neg_of_pos_of_neg hnum (by linarith)
      linarith

/-- On the realizable window `1 ≤ raw ≤ 26399` the Steinhart-Hart
accumulator is strictly positive: the resistance ratio is at least
`1/26400`, so its log is at least `-13 > -3950/298.15`. -/
lemma steinhart_pos (raw : ℤ) (hlo : 1 ≤ raw) (hhi : raw ≤ 26399) :
    0 < steinhart_of raw := by
  have hv1 : (0.000125 : ℝ) ≤ voltage_of raw := by
    unfold voltage_of
    have hc : (1 : ℝ) ≤ (raw : ℝ) := by exact_mod_cast hlo
    nlinarith
  have hv2 : voltage_of raw ≤ 3.299875 := by
    unfold voltage_of
    have hc : (raw : ℝ) ≤ 26399 := by exact_mod_cast hhi
    nlinarith
  have hden : 0 < 3.3 - voltage_of raw := by linarith
  have hr_div : r_therm_of raw / THERM_NOMINAL_R
      = voltage_of raw / (3.3 - voltage_of raw) := by
    unfold r_therm_of THERM_SERIES_R THERM_NOMINAL_R
    field_simp
    ring
  have hlow : (1 : ℝ) / 26400 ≤ r_therm_of raw / THERM_NOMINAL_R := by
    rw [hr_div, le_div_iff₀ hden]
    nlinarith
  have hpos : (0 : ℝ) < r_therm_of raw / THERM_NOMINAL_R :=
    lt_of_lt_of_le (by norm_num) hlow
  have hlog : Real.log (1 / 26400 : ℝ)
      ≤ Real.log (r_therm_of raw / THERM_NOMINAL_R) :=
    (Real.log_le_log_iff (by norm_num) hpos).mpr hlow
  have hloginv : Real.log (1 / 26400 : ℝ) = -Real.log 26400 := by
    rw [one_div, Real.log_inv]
  have h13 : (-13 : ℝ) ≤ Real.log (r_therm_of raw / THERM_NOMINAL_R) := by
    rw [hloginv] at hlog
    linarith [log_26400_le]
  unfold steinhart_of THERM_B_COEFF THERM_NOMINAL_T
  linarith

/-- C6: `thermistor_temp` returns the `-999` sentinel exactly when the
inverted divider resistance is non-positive; for every other raw ADC count
the Steinhart-Hart value exceeds −273.15 °C and so never collides with the
sentinel. -/
theorem thermistor_sentinel_iff (raw : ℤ) :
    thermistor_temp raw = -999 ↔ r_therm_of raw ≤ 0 := by
  unfold thermistor_temp
  split_ifs with h
  · exact iff_of_true (by norm_num) h
  · refine iff_of_false ?_ h
    obtain ⟨hlo, hhi⟩ := r_pos_bounds raw (not_le.mp h)
    have hs := steinhart_pos raw hlo hhi
    have hinv : 0 < 1 / steinhart_of raw := by positivity
    intro heq
    linarith

/-- C8: over the realizable divider voltages strictly between 0 and 3.3 V,
the converted temperature is strictly decreasing in the voltage. -/
theorem thermistor_temp_strict_anti (raw1 raw2 : ℤ)
    (h1 : 0 < voltage_of raw1) (h2 : voltage_of raw2 < 3.3)
    (h12 : voltage_of raw1 < voltage_of raw2) :
    thermistor_temp raw2 < thermistor_temp raw1 := by
  have hr1lo : 1 ≤ raw1 := by
    have hc : (0 : ℝ) < (raw1 : ℝ) := by
      unfold voltage_of at h1
      nlinarith
    have hc' : 0 < raw1 := by exact_mod_cast hc
    omega
  have hr2hi : raw2 ≤ 26399 := by
    have hc : (raw2 : ℝ) < 26400 := by
      unfold voltage_of at h2
      nlinarith
    have hc' : raw2 < 26400 := by exact_mod_cast hc
    omega
  have hltint : raw1 < raw2 := by
    have hc : (raw1 : ℝ) < (raw2 : ℝ) := by
      unfold voltage_of at h12
      nlinarith
    exact_mod_cast hc
  have hr1hi : raw1 ≤ 26399 := by omega
  have hr2lo : 1 ≤ raw2 := by omega
  have hv2 : voltage_of raw2 ≤ 3.299875 := by
    unfold voltage_of
    have hc : (raw2 : ℝ) ≤ 26399 := by exact_mod_cast hr2hi
    nlinarith
  have hden1 : 0 < 3.3 - voltage_of raw1 := by linarith
  have hden2 : 0 < 3.3 - voltage_of raw2 := by linarith
  have hv2pos : 0 < voltage_of raw2 := lt_trans h1 h12
  have hrp1 : 0 < r_therm_of raw1 := by
    unfold r_therm_of THERM_SERIES_R
    exact div_pos (by nlinarith) hden1
  have hrp2 : 0 < r_therm_of raw2 := by
    unfold r_therm_of THERM_SERIES_R
    exact div_pos (by nlinarith) hden2
  have hrmono : r_therm_of raw1 < r_therm_of raw2 := by
    unfold r_therm_of THERM_SERIES_R
    rw [div_lt_div_iff₀ hden1 hden2]
    nlinarith
  have hs1 : 0 < steinhart_of raw1 := steinhart_pos raw1 hr1lo hr1hi
  have hsm : steinhart_of raw1 < steinhart_of raw2 := by
    have hlog : Real.log (r_therm_of raw1 / THERM_NOMINAL_R)
        < Real.log (r_therm_of raw2 / THERM_NOMINAL_R) := by
      apply Real.log_lt_log
      · apply div_pos hrp1
        unfold THERM_NOMINAL_R
        norm_num
      · exact (div_lt_div_iff_of_pos_right (by unfold THERM_NOMINAL_R; norm_num)).mpr hrmono
    unfold steinhart_of THERM_B_COEFF
    linarith
  have hinv : 1 / steinhart_of raw2 < 1 / steinhart_of raw1 :=
    one_div_lt_one_div_of_lt hs1 hsm
  unfold thermistor_temp
  rw [if_neg (not_le.2 hrp1), if_neg (not_le.2 hrp2)]
  linarith

/-- Witness for C4: with peaks `[1, 2, 2, 0]` (a tie between channels 1 and
2) the scan selects index 1, and channel 0 is strictly below it. -/
theorem dominant_channel_argmax_witness :
    dominantIdx ![(1 : ℝ), 2, 2, 0] = 1 ∧
    (![(1 : ℝ), 2, 2, 0] : Fin 4 → ℝ) 0 < (![(1 : ℝ), 2, 2, 0] : Fin 4 → ℝ) 1 := by
  have hd : dominantIdx ![(1 : ℝ), 2, 2, 0] = 1 := by
    unfold dominantIdx dom2 dom1
    norm_num
  exact ⟨hd, (dominant_channel_argmax ![(1 : ℝ), 2, 2, 0]).2.1 hd⟩

/-- Witness for C5 (amended): peaks of 1 °C are at least the threshold and
the direction is defined. -/
theorem direction_defined_iff_amended_witness :
    (0.05 : ℝ) ≤ (fun _ : Fin 4 => (1 : ℝ)) (dominantIdx fun _ => 1) ∧
    (analyze (fun _ => 1) (fun _ => 0)).direction_deg ≠ -1 := by
  have h : (0.05 : ℝ) ≤ (fun _ : Fin 4 => (1 : ℝ)) (dominantIdx fun _ => 1) := by
    show (0.05 : ℝ) ≤ 1
    norm_num
  exact ⟨h, (direction_defined_iff_amended (fun _ => 1) (fun _ => 0)).mpr h⟩

/-- Witness for C6: raw count 0 drives the divider inversion to a
non-positive resistance and `thermistor_temp` returns the sentinel. -/
theorem thermistor_sentinel_iff_witness :
    r_therm_of 0 ≤ 0 ∧ thermistor_temp 0 = -999 := by
  have h : r_therm_of 0 ≤ 0 := by
    unfold r_therm_of voltage_of THERM_SERIES_R
    norm_num
  exact ⟨h, (thermistor_sentinel_iff 0).mpr h⟩

/-- Witness for C8: raw counts 8000 and 16000 (1 V and 2 V) both lie in the
valid window and the higher voltage converts to a strictly lower
temperature. -/
theorem thermistor_temp_strict_anti_witness :
    0 < voltage_of 8000 ∧ voltage_of 16000 < 3.3 ∧
    voltage_of 8000 < voltage_of 16000 ∧
    thermistor_temp 16000 < thermistor_temp 8000 := by
  have h1 : 0 < voltage_of 8000 := by
    unfold voltage_of
    norm_num
  have h2 : voltage_of 16000 < 3.3 := by
    unfold voltage_of
    norm_num
  have h3 : voltage_of 8000 < voltage_of 16000 := by
    unfold voltage_of
    norm_num
  exact ⟨h1, h2, h3, thermistor_temp_strict_anti 8000 16000 h1 h2 h3⟩

end WaterXChange
